import Mathlib

/-!
# Verification of `be/src/exprs/encryption_functions.cpp`

A shallow embedding of `starrocks::EncryptionFunctions` and the proofs of its
null policy, status mapping, buffer sizing and digest properties.

Conventions of the embedding.

* A C++ `(pointer, length)` argument is embedded as the list of bytes stored at
  the pointer together with the length that is passed. The key pointer handed
  to the cipher is an `Option`: `nullptr` is `none`, a buffer pointer is
  `some` of the bytes stored there.
* A primitive that writes through an output pointer and returns an `int`
  returns a `PrimResult`: the status and the bytes it stored at the front of
  the scratch buffer.
* The cipher and codec functions return a `Run`: how the call ended (`Outcome`)
  and the ordered record (`Event`) of the scratch allocations requested and the
  primitives invoked. The digest functions call no status-returning primitive
  and return their `StringVal`.
* `int` arithmetic is 32-bit two-complement (`to_int32`), `size_t` is 64-bit;
  a signed sum that leaves the `int` range, undefined in C++, is read as the
  wrapped value the target machine produces.
* A scratch allocation `new char[n]` with a negative `int` `n` throws
  `std::bad_array_new_length`: the call ends there, without a returned value
  and before the primitive is reached. A non-negative request is taken to
  succeed: exhaustion of memory is outside the embedding (§7 (3)).
-/

namespace starrocks

/-- One `char` / `uint8_t` of a buffer. -/
abbrev Byte := UInt8

/-- Modelled from the spec: `StringVal` (its header `udf/udf.h` is not among the
sources) is the nullable, length-prefixed byte view of §3, with the three
members the source reads: `is_null`, `len` (a C++ `int`) and `ptr`. -/
structure StringVal where
  is_null : Bool
  len : Int
  ptr : List Byte
deriving DecidableEq

namespace StringVal

/-- Modelled from the spec: `StringVal::null()`, the null buffer. -/
def null : StringVal := ⟨true, 0, []⟩

/-- The non-null buffer holding exactly the bytes `bs`. -/
def ofBytes (bs : List Byte) : StringVal := ⟨false, (bs.length : Int), bs⟩

/-- The bytes a buffer designates: the first `len` bytes at `ptr`. -/
def bytes (s : StringVal) : List Byte := s.ptr.take s.len.toNat

/-- A buffer whose `len` is the number of bytes at `ptr`. -/
def WellFormed (s : StringVal) : Prop := s.len = (s.ptr.length : Int)

instance (s : StringVal) : Decidable s.WellFormed :=
  inferInstanceAs (Decidable (s.len = (s.ptr.length : Int)))

end StringVal

/-- Value of a 64-bit pattern read as a C++ `int` (two-complement narrowing). -/
def to_int32 (x : Int) : Int := (x + 2 ^ 31) % 2 ^ 32 - 2 ^ 31

/-- C++ `int + int` on a two-complement machine. -/
def int_add (a b : Int) : Int := to_int32 (a + b)

/-- Largest value of a C++ `int`. -/
def INT_MAX : Int := 2147483647

/-- Modelled from the spec: `AnyValUtil::from_buffer_temp(ctx, ptr, len)`
(`exprs/anyval_util.h` is not among the sources) returns a non-null buffer of
logical length `len` holding a copy of the first `len` bytes at `ptr`, stored in
the execution context (§4, §6). The context itself is not modelled. -/
def from_buffer_temp (ptr : List Byte) (len : Int) : StringVal :=
  ⟨false, len, ptr.take len.toNat⟩

/-- Cipher modes of `util/aes_util.h`; the source only names `AES_128_ECB`. -/
inductive AesMode where
  | AES_128_ECB
deriving DecidableEq

/-- What a primitive hands back: its `int` status and the bytes it stored at the
front of the scratch buffer. -/
structure PrimResult where
  ret_code : Int
  out : List Byte
deriving DecidableEq

/-- The external cipher primitive `AesUtil` (`util/aes_util.h`), a parameter of
the embedding. Arguments, in the order of the C++ call: mode, source bytes,
source length, key pointer (`nullptr` is `none`), key length, iv (`NULL` is
`none`), padding flag. -/
structure AesUtil where
  encrypt : AesMode → List Byte → Int → Option (List Byte) → Int → Option (List Byte) → Bool →
    PrimResult
  decrypt : AesMode → List Byte → Int → Option (List Byte) → Int → Option (List Byte) → Bool →
    PrimResult

/-- The external codec of `exprs/base64.h`, a parameter of the embedding.
Arguments: data bytes, data length. -/
structure Base64 where
  base64_decode2 : List Byte → Int → PrimResult
  base64_encode2 : List Byte → Int → PrimResult

/-- One observable step of a call: a scratch allocation request `new char[n]`
or the invocation of a primitive with the arguments it was given. -/
inductive Event where
  | new_char (n : Int)
  | AesUtil_encrypt (source : List Byte) (source_length : Int) (key : Option (List Byte))
      (key_length : Int)
  | AesUtil_decrypt (source : List Byte) (source_length : Int) (key : Option (List Byte))
      (key_length : Int)
  | base64_decode2 (data : List Byte) (length : Int)
  | base64_encode2 (data : List Byte) (length : Int)
deriving DecidableEq

/-- How a call ends: it returns a value, or `new char[n]` with a negative `n`
throws `std::bad_array_new_length` and the exception leaves the function. -/
inductive Outcome where
  | returned (v : StringVal)
  | bad_array_new_length
deriving DecidableEq

/-- Record of one call: how it ended and the steps taken, in order. -/
structure Run where
  ret : Outcome
  trace : List Event
deriving DecidableEq

/-- Scratch size of `aes_encrypt` (lines 42 and 55): `int cipher_len = src.len + 16`. -/
def aes_encrypt_cipher_len (src_len : Int) : Int := int_add src_len 16

/-- Embedding of `EncryptionFunctions::aes_encrypt` (lines 36-64). -/
def aes_encrypt (A : AesUtil) (src key : StringVal) : Run :=
  if src.len = 0 ∨ src.is_null = true then
    ⟨Outcome.returned StringVal.null, []⟩
  else if key.is_null = true then
    let cipher_len := aes_encrypt_cipher_len src.len
    if cipher_len < 0 then
      ⟨Outcome.bad_array_new_length, [Event.new_char cipher_len]⟩
    else
      let ret := A.encrypt AesMode.AES_128_ECB src.ptr src.len none 0 none true
      ⟨Outcome.returned
          (if ret.ret_code < 0 then StringVal.null else from_buffer_temp ret.out ret.ret_code),
        [Event.new_char cipher_len, Event.AesUtil_encrypt src.ptr src.len none 0]⟩
  else
    let cipher_len := aes_encrypt_cipher_len src.len
    if cipher_len < 0 then
      ⟨Outcome.bad_array_new_length, [Event.new_char cipher_len]⟩
    else
      let ret := A.encrypt AesMode.AES_128_ECB src.ptr src.len (some key.ptr) key.len none true
      ⟨Outcome.returned
          (if ret.ret_code < 0 then StringVal.null else from_buffer_temp ret.out ret.ret_code),
        [Event.new_char cipher_len, Event.AesUtil_encrypt src.ptr src.len (some key.ptr) key.len]⟩

/-- Embedding of `EncryptionFunctions::aes_decrypt` (lines 66-81). -/
def aes_decrypt (A : AesUtil) (src key : StringVal) : Run :=
  if src.is_null = true ∨ src.len = 0 ∨ key.is_null = true ∨ key.len = 0 then
    ⟨Outcome.returned StringVal.null, []⟩
  else
    let cipher_len := src.len
    if cipher_len < 0 then
      ⟨Outcome.bad_array_new_length, [Event.new_char cipher_len]⟩
    else
      let ret := A.decrypt AesMode.AES_128_ECB src.ptr src.len (some key.ptr) key.len none true
      ⟨Outcome.returned
          (if ret.ret_code < 0 then StringVal.null else from_buffer_temp ret.out ret.ret_code),
        [Event.new_char cipher_len, Event.AesUtil_decrypt src.ptr src.len (some key.ptr) key.len]⟩

/-- Scratch size of `from_base64` (lines 88-90): `new char[cipher_len + 3]` with
`int cipher_len = src.len`. -/
def from_base64_scratch_len (src_len : Int) : Int := int_add src_len 3

/-- Embedding of `EncryptionFunctions::from_base64` (lines 83-97). -/
def from_base64 (B : Base64) (src : StringVal) : Run :=
  if src.len = 0 ∨ src.is_null = true then
    ⟨Outcome.returned StringVal.null, []⟩
  else
    let cipher_len := src.len
    if from_base64_scratch_len cipher_len < 0 then
      ⟨Outcome.bad_array_new_length, [Event.new_char (from_base64_scratch_len cipher_len)]⟩
    else
      let ret := B.base64_decode2 src.ptr src.len
      ⟨Outcome.returned
          (if ret.ret_code < 0 then StringVal.null else from_buffer_temp ret.out ret.ret_code),
        [Event.new_char (from_base64_scratch_len cipher_len),
          Event.base64_decode2 src.ptr src.len]⟩

/-! ## `to_base64`: the scratch size computed in `double` -/

/-- A non-negative binary fraction `num / 2 ^ exp`: the finite non-negative
values of a `double` are of this shape. -/
structure Dyadic where
  num : Nat
  exp : Nat
deriving DecidableEq

/-- Search for the least `k` at or after the given one with
`b * 2 ^ 52 ≤ a * 2 ^ k`, that is, with `a * 2 ^ k / b` at least `2 ^ 52`. -/
def double_scale (a b : Nat) : Nat → Nat → Nat
  | 0, k => k
  | fuel + 1, k => if b * 2 ^ 52 ≤ a * 2 ^ k then k else double_scale a b fuel (k + 1)

/-- IEEE-754 binary64 division `(double)a / (double)b` of two integers that a
`double` holds exactly (`a, b < 2 ^ 53`, `0 < b`): the quotient is scaled to a
53-bit significand and rounded to nearest, ties to even. -/
def double_div (a b : Nat) : Dyadic :=
  if a = 0 then ⟨0, 0⟩
  else
    let k := double_scale a b 128 0
    let q := a * 2 ^ k / b
    let r := a * 2 ^ k % b
    let m := if 2 * r < b then q else if b < 2 * r then q + 1 else if q % 2 = 0 then q else q + 1
    ⟨m, k⟩

/-- The `ceil` of a non-negative `double`; the result is an integer. -/
def double_ceil (d : Dyadic) : Nat := (d.num + 2 ^ d.exp - 1) / 2 ^ d.exp

/-- Scratch size of `to_base64` (line 104):
`int cipher_len = (size_t)(4.0 * ceil((double)src.len / 3.0)) + 1`.
`(double)src.len` is exact for an `int`; the product by `4.0` of an integer
below `2 ^ 51` is exact; the conversion to `size_t` is exact; `+ 1` is 64-bit
unsigned and the initialisation narrows to `int`. A negative `src.len` is not
the length of a buffer (the conversion of a negative `double` to `size_t` is
undefined) and is read as 0 here. -/
def to_base64_cipher_len (src_len : Int) : Int :=
  to_int32 (((4 * double_ceil (double_div src_len.toNat 3) + 1) % 2 ^ 64 : Nat) : Int)

/-- Embedding of `EncryptionFunctions::to_base64` (lines 99-113). -/
def to_base64 (B : Base64) (src : StringVal) : Run :=
  if src.len = 0 ∨ src.is_null = true then
    ⟨Outcome.returned StringVal.null, []⟩
  else
    let cipher_len := to_base64_cipher_len src.len
    if cipher_len < 0 then
      ⟨Outcome.bad_array_new_length, [Event.new_char cipher_len]⟩
    else
      let ret := B.base64_encode2 src.ptr src.len
      ⟨Outcome.returned
          (if ret.ret_code < 0 then StringVal.null else from_buffer_temp ret.out ret.ret_code),
        [Event.new_char cipher_len, Event.base64_encode2 src.ptr src.len]⟩

/-! ## The digest: MD5 (RFC 1321) and `Md5Digest` -/

/-- Per-round left-rotation amounts of MD5. -/
def md5_s : List Nat :=
  [7, 12, 17, 22, 7, 12, 17, 22, 7, 12, 17, 22, 7, 12, 17, 22,
   5, 9, 14, 20, 5, 9, 14, 20, 5, 9, 14, 20, 5, 9, 14, 20,
   4, 11, 16, 23, 4, 11, 16, 23, 4, 11, 16, 23, 4, 11, 16, 23,
   6, 10, 15, 21, 6, 10, 15, 21, 6, 10, 15, 21, 6, 10, 15, 21]

/-- The sine table of MD5: entry `i` is `floor(2 ^ 32 * |sin (i + 1)|)`. -/
def md5_K : List Nat :=
  [0xd76aa478, 0xe8c7b756, 0x242070db, 0xc1bdceee, 0xf57c0faf, 0x4787c62a, 0xa8304613, 0xfd469501,
   0x698098d8, 0x8b44f7af, 0xffff5bb1, 0x895cd7be, 0x6b901122, 0xfd987193, 0xa679438e, 0x49b40821,
   0xf61e2562, 0xc040b340, 0x265e5a51, 0xe9b6c7aa, 0xd62f105d, 0x02441453, 0xd8a1e681, 0xe7d3fbc8,
   0x21e1cde6, 0xc33707d6, 0xf4d50d87, 0x455a14ed, 0xa9e3e905, 0xfcefa3f8, 0x676f02d9, 0x8d2a4c8a,
   0xfffa3942, 0x8771f681, 0x6d9d6122, 0xfde5380c, 0xa4beea44, 0x4bdecfa9, 0xf6bb4b60, 0xbebfbc70,
   0x289b7ec6, 0xeaa127fa, 0xd4ef3085, 0x04881d05, 0xd9d4d039, 0xe6db99e5, 0x1fa27cf8, 0xc4ac5665,
   0xf4292244, 0x432aff97, 0xab9423a7, 0xfc93a039, 0x655b59c3, 0x8f0ccc92, 0xffeff47d, 0x85845dd1,
   0x6fa87e4f, 0xfe2ce6e0, 0xa3014314, 0x4e0811a1, 0xf7537e82, 0xbd3af235, 0x2ad7d2bb, 0xeb86d391]

/-- Rotate a 32-bit word left by `c` bits. -/
def rotl32 (x c : Nat) : Nat := ((x <<< c) ||| (x >>> (32 - c))) % 2 ^ 32

/-- Bitwise complement of a 32-bit word. -/
def not32 (x : Nat) : Nat := x ^^^ 0xffffffff

/-- The four 32-bit chaining words of MD5. -/
structure Md5State where
  a : Nat
  b : Nat
  c : Nat
  d : Nat
deriving DecidableEq

/-- Initial chaining value. -/
def md5_init : Md5State := ⟨0x67452301, 0xefcdab89, 0x98badcfe, 0x10325476⟩

/-- Little-endian value of the first four bytes of a list. -/
def le32 (bs : List Nat) : Nat :=
  bs.getD 0 0 + bs.getD 1 0 * 2 ^ 8 + bs.getD 2 0 * 2 ^ 16 + bs.getD 3 0 * 2 ^ 24

/-- Word `g` of a 64-byte block. -/
def md5_word (block : List Nat) (g : Nat) : Nat := le32 (block.drop (4 * g))

/-- Operation `i` (0 to 63) of the compression function. -/
def md5_step (block : List Nat) (st : Md5State) (i : Nat) : Md5State :=
  let f :=
    if i < 16 then (st.b &&& st.c) ||| (not32 st.b &&& st.d)
    else if i < 32 then (st.d &&& st.b) ||| (not32 st.d &&& st.c)
    else if i < 48 then st.b ^^^ st.c ^^^ st.d
    else st.c ^^^ (st.b ||| not32 st.d)
  let g :=
    if i < 16 then i
    else if i < 32 then (5 * i + 1) % 16
    else if i < 48 then (3 * i + 5) % 16
    else (7 * i) % 16
  let x := (st.a + f + md5_K.getD i 0 + md5_word block g) % 2 ^ 32
  ⟨st.d, (st.b + rotl32 x (md5_s.getD i 0)) % 2 ^ 32, st.b, st.c⟩

/-- The compression function on one 64-byte block. -/
def md5_block (st : Md5State) (block : List Nat) : Md5State :=
  let r := (List.range 64).foldl (md5_step block) st
  ⟨(st.a + r.a) % 2 ^ 32, (st.b + r.b) % 2 ^ 32, (st.c + r.c) % 2 ^ 32, (st.d + r.d) % 2 ^ 32⟩

/-- The `k` low bytes of `n`, least significant first. -/
def le_bytes (n : Nat) : Nat → List Nat
  | 0 => []
  | k + 1 => n % 256 :: le_bytes (n / 256) k

/-- Message padding: a `0x80` byte, zeros up to 56 modulo 64, then the bit
length as eight little-endian bytes. -/
def md5_pad (msg : List Nat) : List Nat :=
  msg ++ 0x80 :: List.replicate ((119 - msg.length % 64) % 64) 0
    ++ le_bytes ((8 * msg.length) % 2 ^ 64) 8

/-- Run the compression function over `n` consecutive 64-byte blocks. -/
def md5_blocks : Nat → Md5State → List Nat → Md5State
  | 0, st, _ => st
  | n + 1, st, bs => md5_blocks n (md5_block st (bs.take 64)) (bs.drop 64)

/-- The 16 digest bytes of a message. -/
def md5_raw (msg : List Nat) : List Nat :=
  let p := md5_pad msg
  let st := md5_blocks (p.length / 64) md5_init p
  le_bytes st.a 4 ++ le_bytes st.b 4 ++ le_bytes st.c 4 ++ le_bytes st.d 4

/-- Lower-case hexadecimal digit of a value below 16, as an ASCII byte. -/
def hex_digit (n : Nat) : Byte := if n < 10 then (48 + n).toUInt8 else (87 + n).toUInt8

/-- The digest of a message as 32 lower-case hexadecimal characters. -/
def md5_hex (msg : List Byte) : List Byte :=
  (md5_raw (msg.map UInt8.toNat)).flatMap fun b => [hex_digit (b / 16), hex_digit (b % 16)]

/-- The bytes of an ASCII string literal. -/
def ascii (s : String) : List Byte := s.toList.map fun c => c.toNat.toUInt8

/-- Modelled from the spec: `Md5Digest` (`util/md5.h` is not among the sources)
is the digest accumulator of §3 and §4.4: it absorbs byte spans in order and
finalizes to the lower-case hexadecimal MD5 digest of everything absorbed.
`absorbed` is what `update` has taken in, `hex_str` what `hex()` returns. -/
structure Md5Digest where
  absorbed : List Byte
  hex_str : List Byte
deriving DecidableEq

namespace Md5Digest

/-- Modelled from the spec: the default constructor, a fresh accumulator. -/
def new : Md5Digest := ⟨[], []⟩

/-- Modelled from the spec: `update(ptr, len)` absorbs the `len` bytes at `ptr`. -/
def update (d : Md5Digest) (ptr : List Byte) (len : Int) : Md5Digest :=
  ⟨d.absorbed ++ ptr.take len.toNat, d.hex_str⟩

/-- Modelled from the spec: `digest()` finalizes the accumulator. -/
def digest (d : Md5Digest) : Md5Digest := ⟨d.absorbed, md5_hex d.absorbed⟩

/-- Modelled from the spec: `hex()`, the hexadecimal digest string. -/
def hex (d : Md5Digest) : List Byte := d.hex_str

end Md5Digest

/-- Embedding of `EncryptionFunctions::md5sum` (lines 115-126). The array `args` with its
count `num_args` is the list of its first `num_args` entries; the loop visits
them in order and skips the null ones. -/
def md5sum (num_args : Int) (args : List StringVal) : StringVal :=
  let digest := (args.take num_args.toNat).foldl
    (fun (digest : Md5Digest) (arg : StringVal) =>
      if arg.is_null = true then digest else digest.update arg.ptr arg.len)
    Md5Digest.new
  let digest := digest.digest
  from_buffer_temp digest.hex (digest.hex.length : Int)

/-- Embedding of `EncryptionFunctions::md5` (lines 128-136). -/
def md5 (src : StringVal) : StringVal :=
  if src.is_null = true then StringVal.null
  else
    let digest := Md5Digest.new
    let digest := digest.update src.ptr src.len
    let digest := digest.digest
    from_buffer_temp digest.hex (digest.hex.length : Int)

/-! ## Specification-side notions and stand-in primitives -/

/-- The concatenation, in order, of the bytes of the non-null arguments. -/
def concat_bytes (args : List StringVal) : List Byte :=
  (args.filter fun a => !a.is_null).flatMap StringVal.bytes

/-- How a primitive status `r` is mapped to a returned value `v`: null exactly
on a negative status, otherwise a non-null buffer whose length is the returned
count and whose bytes are the first that many bytes the primitive stored. -/
def MapsStatus (r : PrimResult) (v : StringVal) : Prop :=
  (v.is_null = true ↔ r.ret_code < 0) ∧
  (r.ret_code < 0 → v = StringVal.null) ∧
  (0 ≤ r.ret_code →
    v.is_null = false ∧ v.len = r.ret_code ∧ v.ptr = r.out.take r.ret_code.toNat)

/-- The assumption on the cipher primitive under which the round trip is
stated: for a 16-byte key and a non-empty source of `n` bytes with
`n + 16 ≤ INT_MAX`, encrypting reports a positive count, and decrypting those
ciphertext bytes under the same key reports the source length and stores the
source bytes. -/
def AesUtil.RoundTrip (A : AesUtil) : Prop :=
  ∀ (s k : List Byte), s ≠ [] → (s.length : Int) + 16 ≤ INT_MAX → k.length = 16 →
    0 < (A.encrypt AesMode.AES_128_ECB s s.length (some k) 16 none true).ret_code ∧
    (A.decrypt AesMode.AES_128_ECB
        ((A.encrypt AesMode.AES_128_ECB s s.length (some k) 16 none true).out.take
          (A.encrypt AesMode.AES_128_ECB s s.length (some k) 16 none true).ret_code.toNat)
        (A.encrypt AesMode.AES_128_ECB s s.length (some k) 16 none true).ret_code
        (some k) 16 none true).ret_code = s.length ∧
    (A.decrypt AesMode.AES_128_ECB
        ((A.encrypt AesMode.AES_128_ECB s s.length (some k) 16 none true).out.take
          (A.encrypt AesMode.AES_128_ECB s s.length (some k) 16 none true).ret_code.toNat)
        (A.encrypt AesMode.AES_128_ECB s s.length (some k) 16 none true).ret_code
        (some k) 16 none true).out.take s.length = s

/-- The assumption on the codec under which the base64 round trip is stated:
for a non-empty source of at most 1610612733 bytes, encoding reports a positive
count `c` with `c + 3 ≤ INT_MAX` (the base64 length `4 * ceil(n / 3)` is such a
count), and decoding those characters reports the source length and stores the
source bytes. -/
def Base64.RoundTrip (B : Base64) : Prop :=
  ∀ (s : List Byte), s ≠ [] → (s.length : Int) ≤ 1610612733 →
    0 < (B.base64_encode2 s s.length).ret_code ∧
    (B.base64_encode2 s s.length).ret_code + 3 ≤ INT_MAX ∧
    (B.base64_decode2
        ((B.base64_encode2 s s.length).out.take (B.base64_encode2 s s.length).ret_code.toNat)
        (B.base64_encode2 s s.length).ret_code).ret_code = s.length ∧
    (B.base64_decode2
        ((B.base64_encode2 s s.length).out.take (B.base64_encode2 s s.length).ret_code.toNat)
        (B.base64_encode2 s s.length).ret_code).out.take s.length = s

/-- The assumption under which a null key and an empty non-null key give the
same result: the status and output of `encrypt` do not depend on the key
pointer when the key length is 0. -/
def AesUtil.IgnoresKeyPointerAtLengthZero (A : AesUtil) : Prop :=
  ∀ (mode : AesMode) (s : List Byte) (n : Int) (k : List Byte) (iv : Option (List Byte))
    (padding : Bool), A.encrypt mode s n none 0 iv padding = A.encrypt mode s n (some k) 0 iv padding

/-- Every status of the primitive, on a source length that is an `int`, is
itself in the range of the C++ `int` it is returned as. -/
def AesUtil.IntStatus (A : AesUtil) : Prop :=
  ∀ (mode : AesMode) (s : List Byte) (n : Int) (k : Option (List Byte)) (kl : Int)
    (iv : Option (List Byte)) (padding : Bool), -2147483648 ≤ n → n ≤ INT_MAX →
    (-2147483648 ≤ (A.encrypt mode s n k kl iv padding).ret_code ∧
      (A.encrypt mode s n k kl iv padding).ret_code ≤ INT_MAX) ∧
    (-2147483648 ≤ (A.decrypt mode s n k kl iv padding).ret_code ∧
      (A.decrypt mode s n k kl iv padding).ret_code ≤ INT_MAX)

/-- Every status of the codec, on a data length that is an `int`, is itself in
the range of the C++ `int` it is returned as. -/
def Base64.IntStatus (B : Base64) : Prop :=
  ∀ (s : List Byte) (n : Int), -2147483648 ≤ n → n ≤ INT_MAX →
    (-2147483648 ≤ (B.base64_encode2 s n).ret_code ∧ (B.base64_encode2 s n).ret_code ≤ INT_MAX) ∧
    (-2147483648 ≤ (B.base64_decode2 s n).ret_code ∧ (B.base64_decode2 s n).ret_code ≤ INT_MAX)

/-- A stand-in cipher for evaluating the functions at concrete inputs: it
stores the source followed by one block of sixteen bytes 16, and undoes that;
`encrypt` reports -1 when the count would not fit an `int`, `decrypt` reports
-1 on a source shorter than one block. The key is not consulted. -/
def copy_cipher : AesUtil where
  encrypt := fun _ source source_length _ _ _ _ =>
    if 2147483647 < source_length + 16 then ⟨-1, []⟩
    else ⟨source_length + 16, source.take source_length.toNat ++ List.replicate 16 16⟩
  decrypt := fun _ source source_length _ _ _ _ =>
    if source_length < 16 then ⟨-1, []⟩
    else ⟨source_length - 16, source.take (source_length - 16).toNat⟩

/-- A stand-in cipher that refuses a null key pointer with status -1 and
otherwise behaves as `copy_cipher`. -/
def strict_cipher : AesUtil where
  encrypt := fun mode source source_length key key_length iv padding =>
    match key with
    | none => ⟨-1, []⟩
    | some k => copy_cipher.encrypt mode source source_length (some k) key_length iv padding
  decrypt := copy_cipher.decrypt

/-- A stand-in codec for evaluating the functions at concrete inputs: it stores
the source followed by one `=` character, and undoes that; the encoder reports
-1 when the count plus the decode slack would not fit an `int`, the decoder
reports -1 on input without the trailing character. -/
def copy_codec : Base64 where
  base64_encode2 := fun data length =>
    if 2147483647 < length + 1 + 3 then ⟨-1, []⟩
    else ⟨length + 1, data.take length.toNat ++ [61]⟩
  base64_decode2 := fun data length =>
    if data.getD (length.toNat - 1) 0 = 61 ∧ 0 < length
    then ⟨length - 1, data.take (length - 1).toNat⟩ else ⟨-1, []⟩

/-- A 16-byte key. -/
def key16 : StringVal := StringVal.ofBytes (ascii "0123456789abcdef")

/-- A well-formed non-null buffer of `INT_MAX` zero bytes, the longest an `int`
length admits. -/
def long_src : StringVal := ⟨false, 2147483647, List.replicate 2147483647 0⟩

end starrocks

namespace starrocks

/-! ## Helper lemmas -/

/-- The list `le_bytes n k` has `k` bytes. -/
theorem le_bytes_length (k : Nat) : ∀ n : Nat, (le_bytes n k).length = k := by
  induction k with
  | zero => intro n; rfl
  | succ k ih => intro n; simp [le_bytes, ih]

/-- Two characters are produced per digest byte. -/
theorem hex_pairs_length (f g : Nat → Byte) (l : List Nat) :
    (l.flatMap fun b => [f b, g b]).length = 2 * l.length := by
  induction l with
  | nil => rfl
  | cons x xs ih => simp [List.flatMap_cons, ih]; omega

/-- The hexadecimal digest has 32 characters, whatever the message. -/
theorem md5_hex_length (msg : List Byte) : (md5_hex msg).length = 32 := by
  unfold md5_hex
  rw [hex_pairs_length]
  simp [md5_raw, le_bytes_length]

/-- The loop of `md5sum` absorbs the bytes of the non-null arguments, in order. -/
theorem md5sum_loop (args : List StringVal) : ∀ d : Md5Digest,
    args.foldl (fun (digest : Md5Digest) (arg : StringVal) =>
        if arg.is_null = true then digest else digest.update arg.ptr arg.len) d
      = ⟨d.absorbed ++ concat_bytes args, d.hex_str⟩ := by
  induction args with
  | nil => intro d; simp [concat_bytes]
  | cons a as ih =>
    intro d
    rw [List.foldl_cons, ih]
    cases h : a.is_null <;>
      simp [concat_bytes, h, Md5Digest.update, StringVal.bytes, List.filter_cons]

/-- Closed form of `md5sum`. -/
theorem md5sum_eq (num_args : Int) (args : List StringVal) :
    md5sum num_args args
      = ⟨false, 32, md5_hex (concat_bytes (args.take num_args.toNat))⟩ := by
  simp [md5sum, md5sum_loop, Md5Digest.new, Md5Digest.digest, Md5Digest.hex, from_buffer_temp,
    md5_hex_length]

/-- Closed form of `md5` on a non-null buffer. -/
theorem md5_eq (src : StringVal) (h : src.is_null = false) :
    md5 src = ⟨false, 32, md5_hex src.bytes⟩ := by
  simp [md5, h, Md5Digest.new, Md5Digest.update, Md5Digest.digest, Md5Digest.hex, from_buffer_temp,
    md5_hex_length, StringVal.bytes]

/-- The bytes of `ofBytes bs` are `bs`. -/
theorem bytes_ofBytes (bs : List Byte) : (StringVal.ofBytes bs).bytes = bs := by
  simp [StringVal.bytes, StringVal.ofBytes]

set_option maxRecDepth 100000 in
/-- The digest of the empty message, by evaluation of the MD5 model. -/
theorem md5_hex_empty : md5_hex [] = ascii "d41d8cd98f00b204e9800998ecf8427e" := by decide

/-- The stand-in cipher meets the round-trip assumption. -/
theorem copy_cipher_roundTrip : copy_cipher.RoundTrip := by
  intro s k _ hmax _
  simp only [INT_MAX] at hmax
  have h0 : ¬ ((2147483647 : Int) < (s.length : Int) + 16) := by omega
  have h1 : ((s.length : Int) + 16).toNat = s.length + 16 := by omega
  have h2 : ((s.length : Int) + 16 - 16).toNat = s.length := by omega
  have h3 : ¬ ((s.length : Int) + 16 < 16) := by omega
  simp [copy_cipher, h0, h1, h2, h3, List.take_append_eq_append_take]
  refine ⟨by omega, ?_⟩
  rw [List.take_take]
  simp

/-- The stand-in cipher returns statuses that fit an `int`. -/
theorem copy_cipher_intStatus : copy_cipher.IntStatus := by
  intro mode s n k kl iv padding hlo hhi
  simp only [INT_MAX] at hhi ⊢
  simp only [copy_cipher]
  refine ⟨?_, ?_⟩ <;> split_ifs <;> constructor <;> simp <;> omega

/-- The stand-in codec meets the round-trip assumption. -/
theorem copy_codec_roundTrip : copy_codec.RoundTrip := by
  intro s _ hmax
  have h0 : ¬ ((2147483647 : Int) < (s.length : Int) + 1 + 3) := by omega
  have h1 : ((s.length : Int) + 1).toNat = s.length + 1 := by omega
  have h2 : ((s.length : Int) + 1 - 1).toNat = s.length := by omega
  have h3 : (0 : Int) < (s.length : Int) + 1 := by omega
  simp [copy_codec, h0, h1, h2, h3, List.take_append_eq_append_take, List.getD_eq_getElem?_getD,
    INT_MAX]
  refine ⟨by omega, ?_⟩
  rw [List.take_take]
  simp

/-- The stand-in codec returns statuses that fit an `int`. -/
theorem copy_codec_intStatus : copy_codec.IntStatus := by
  intro s n hlo hhi
  simp only [INT_MAX] at hhi ⊢
  simp only [copy_codec]
  refine ⟨?_, ?_⟩ <;> split_ifs <;> constructor <;> simp <;> omega

/-- Narrowing to `int` keeps a value that is in the `int` range. -/
theorem to_int32_of_range (x : Int) (h0 : -2147483648 ≤ x) (h1 : x ≤ 2147483647) :
    to_int32 x = x := by
  unfold to_int32
  omega

/-- The scale search never goes below its starting point. -/
theorem le_double_scale (a b : Nat) : ∀ (fuel k : Nat), k ≤ double_scale a b fuel k := by
  intro fuel
  induction fuel with
  | zero => intro k; simp [double_scale]
  | succ f ih =>
    intro k
    unfold double_scale
    split
    · exact le_rfl
    · exact le_trans (Nat.le_succ k) (ih (k + 1))

/-- For an `int` numerator and divisor 3 the quotient is scaled by at least `2 ^ 2`. -/
theorem double_scale_ge_two (n : Nat) (h : n < 2 ^ 31) : 2 ≤ double_scale n 3 128 0 := by
  have h0 : ¬ (3 * 2 ^ 52 ≤ n * 2 ^ 0) := by norm_num at h ⊢; omega
  have h1 : ¬ (3 * 2 ^ 52 ≤ n * 2 ^ (0 + 1)) := by norm_num at h ⊢; omega
  rw [show (128 : Nat) = 126 + 1 + 1 from rfl]
  rw [double_scale, if_neg h0, double_scale, if_neg h1]
  exact le_double_scale n 3 126 2

/-- Rounding the scaled quotient of `3 * X + t * P` by 3 (`t < 3`, `3 ≤ P`) is exact
when `t = 0` and otherwise stays within `(X, X + P]`. -/
theorem ceil_of_rounded (P X t m : Nat) (hP : 3 ≤ P) (ht : t < 3)
    (hm : m = (if 2 * ((3 * X + t * P) % 3) < 3 then (3 * X + t * P) / 3
      else if 3 < 2 * ((3 * X + t * P) % 3) then (3 * X + t * P) / 3 + 1
      else if (3 * X + t * P) / 3 % 2 = 0 then (3 * X + t * P) / 3 else (3 * X + t * P) / 3 + 1)) :
    (t = 0 → m = X) ∧ (0 < t → X < m ∧ m ≤ X + P) := by
  have ht3 : t = 0 ∨ t = 1 ∨ t = 2 := by omega
  rcases ht3 with rfl | rfl | rfl <;>
    (constructor <;> intro h <;> split_ifs at hm <;> omega)

/-- The value `ceil((double)n / 3.0)` is the integer `ceil(n / 3)` for every positive `int` `n`:
the rounding of the quotient never crosses an integer. -/
theorem double_ceil_div_three (n : Nat) (h0 : 0 < n) (h : n < 2 ^ 31) :
    double_ceil (double_div n 3) = (n + 2) / 3 := by
  have hk := double_scale_ge_two n h
  have hP : 3 ≤ 2 ^ double_scale n 3 128 0 :=
    le_trans (by norm_num) (Nat.pow_le_pow_right (by norm_num : 0 < 2) hk)
  have hn : n ≠ 0 := by omega
  simp only [double_ceil, double_div, if_neg hn]
  generalize 2 ^ double_scale n 3 128 0 = P at hP ⊢
  obtain ⟨j, t, ht, rfl⟩ : ∃ j t, t < 3 ∧ n = 3 * j + t :=
    ⟨n / 3, n % 3, Nat.mod_lt _ (by norm_num), by omega⟩
  have ha : (3 * j + t) * P = 3 * (j * P) + t * P := by ring
  rw [ha]
  generalize hm : (if 2 * ((3 * (j * P) + t * P) % 3) < 3 then (3 * (j * P) + t * P) / 3
      else if 3 < 2 * ((3 * (j * P) + t * P) % 3) then (3 * (j * P) + t * P) / 3 + 1
      else if (3 * (j * P) + t * P) / 3 % 2 = 0 then (3 * (j * P) + t * P) / 3
      else (3 * (j * P) + t * P) / 3 + 1) = m
  obtain ⟨hz, hpos⟩ := ceil_of_rounded P (j * P) t m hP ht hm.symm
  have hj1 : (j + 1) * P = j * P + P := by ring
  have hj2 : (j + 2) * P = j * P + 2 * P := by ring
  rcases Nat.eq_zero_or_pos t with rfl | htpos
  · have hmX := hz rfl
    subst hmX
    have : (3 * j + 0 + 2) / 3 = j := by omega
    rw [this]
    apply Nat.div_eq_of_lt_le
    · omega
    · rw [hj1]; omega
  · obtain ⟨hlo, hhi⟩ := hpos htpos
    have : (3 * j + t + 2) / 3 = j + 1 := by omega
    rw [this]
    apply Nat.div_eq_of_lt_le
    · rw [hj1]; omega
    · rw [show j + 1 + 1 = j + 2 from rfl, hj2]; omega

/-- The integer `ceil(z / 3)` in integer division. -/
theorem ceil_div_three (z : Int) : ⌈(z : ℚ) / 3⌉ = (z + 2) / 3 := by
  rw [Int.ceil_eq_iff]
  have h1 : 3 * ((z + 2) / 3) ≤ z + 2 := by omega
  have h2 : z + 2 < 3 * ((z + 2) / 3) + 3 := by omega
  generalize (z + 2) / 3 = c at h1 h2
  have h1q : (3 : ℚ) * c ≤ z + 2 := by exact_mod_cast h1
  have h2q : (z : ℚ) + 2 < 3 * c + 3 := by exact_mod_cast h2
  have h3q : (z : ℚ) + 1 ≤ 3 * c + 3 - 2 := by
    have : z + 1 ≤ 3 * c + 3 - 2 := by omega
    exact_mod_cast this
  constructor
  · rw [lt_div_iff₀ (by norm_num : (0 : ℚ) < 3)]
    linarith
  · rw [div_le_iff₀ (by norm_num : (0 : ℚ) < 3)]
    linarith

/-- Line 104 computes `ceil(n / 3) * 4 + 1` as long as that fits an `int`. -/
theorem to_base64_cipher_len_eq (n : Int) (hpos : 0 < n) (hmax : n ≤ 1610612733) :
    to_base64_cipher_len n = (n + 2) / 3 * 4 + 1 := by
  obtain ⟨m, rfl⟩ : ∃ m : Nat, n = (m : Int) := ⟨n.toNat, by omega⟩
  have hm0 : 0 < m := by omega
  have hm1 : m < 2 ^ 31 := by norm_num; omega
  unfold to_base64_cipher_len
  rw [Int.toNat_ofNat, double_ceil_div_three m hm0 hm1]
  have hc : (m + 2) / 3 ≤ 536870911 := by omega
  have hmod : (4 * ((m + 2) / 3) + 1) % 2 ^ 64 = 4 * ((m + 2) / 3) + 1 :=
    Nat.mod_eq_of_lt (by norm_num; omega)
  rw [hmod, to_int32_of_range _ (by omega) (by omega)]
  omega

/-! ### The division model is the correctly rounded 53-bit quotient -/

/-- With enough fuel the scale search stops at the least scale that brings the
quotient to `2 ^ 52` or more. -/
theorem double_scale_spec (a b : Nat) : ∀ fuel k : Nat, b * 2 ^ 52 ≤ a * 2 ^ (k + fuel) →
    b * 2 ^ 52 ≤ a * 2 ^ double_scale a b fuel k ∧
    (double_scale a b fuel k = k ∨ a * 2 ^ (double_scale a b fuel k - 1) < b * 2 ^ 52) := by
  intro fuel
  induction fuel with
  | zero =>
    intro k h
    exact ⟨by simpa [double_scale] using h, Or.inl rfl⟩
  | succ f ih =>
    intro k h
    unfold double_scale
    split
    · rename_i hc
      exact ⟨hc, Or.inl rfl⟩
    · rename_i hc
      have h2 : b * 2 ^ 52 ≤ a * 2 ^ (k + 1 + f) := by
        rw [show k + 1 + f = k + (f + 1) by omega]
        exact h
      obtain ⟨i1, i2⟩ := ih (k + 1) h2
      refine ⟨i1, Or.inr ?_⟩
      rcases i2 with e | e
      · rw [e]
        simpa using hc
      · exact e

/-- The significand of `double_div` has 53 bits. -/
theorem double_div_normal (a b : Nat) (ha : 0 < a) (hb : 0 < b) (hab : a < b * 2 ^ 53)
    (hfuel : b * 2 ^ 52 ≤ a * 2 ^ 128) :
    2 ^ 52 ≤ (double_div a b).num ∧ (double_div a b).num ≤ 2 ^ 53 := by
  have hne : a ≠ 0 := by omega
  obtain ⟨h1, h2⟩ := double_scale_spec a b 128 0 (by simpa using hfuel)
  have hup : a * 2 ^ double_scale a b 128 0 < b * 2 ^ 53 := by
    rcases h2 with e | e
    · rw [e]
      simpa using hab
    · by_cases hz : double_scale a b 128 0 = 0
      · rw [hz]
        simpa using hab
      · have hs : double_scale a b 128 0 = (double_scale a b 128 0 - 1) + 1 := by omega
        rw [hs, pow_succ]
        have : b * 2 ^ 53 = b * 2 ^ 52 * 2 := by ring
        rw [this, ← mul_assoc]
        omega
  simp only [double_div, if_neg hne]
  generalize a * 2 ^ double_scale a b 128 0 = N at h1 hup
  have hq1 : 2 ^ 52 ≤ N / b := (Nat.le_div_iff_mul_le hb).mpr (by rw [mul_comm]; exact h1)
  have hq2 : N / b < 2 ^ 53 := (Nat.div_lt_iff_lt_mul hb).mpr (by rw [mul_comm]; exact hup)
  constructor <;> split_ifs <;> omega

/-- The `double_div` significand is within half a unit of the exact scaled quotient. -/
theorem double_div_nearest (a b : Nat) (ha : 0 < a) (hb : 0 < b) :
    2 * (b * (double_div a b).num) ≤ 2 * (a * 2 ^ (double_div a b).exp) + b ∧
    2 * (a * 2 ^ (double_div a b).exp) ≤ 2 * (b * (double_div a b).num) + b := by
  have hne : a ≠ 0 := by omega
  simp only [double_div, if_neg hne]
  have hdm := Nat.div_add_mod (a * 2 ^ double_scale a b 128 0) b
  have hr := Nat.mod_lt (a * 2 ^ double_scale a b 128 0) hb
  generalize a * 2 ^ double_scale a b 128 0 = N at hdm hr ⊢
  generalize N / b = q at hdm ⊢
  generalize N % b = r at hdm hr ⊢
  have hs : b * (q + 1) = b * q + b := by ring
  constructor <;> split_ifs <;> (try rw [hs]) <;> (generalize b * q = Y at *) <;> omega

/-- The `double` nearest to one third is `0x15555555555555 / 2 ^ 54`. -/
theorem double_div_one_third : double_div 1 3 = ⟨6004799503160661, 54⟩ := by decide

/-- For a positive `int` `n`, `double_div n 3` is the 53-bit significand nearest to `n / 3`. -/
theorem double_div_three_correct (n : Nat) (h0 : 0 < n) (h : n < 2 ^ 31) :
    2 ^ 52 ≤ (double_div n 3).num ∧ (double_div n 3).num ≤ 2 ^ 53 ∧
    2 * (3 * (double_div n 3).num) ≤ 2 * (n * 2 ^ (double_div n 3).exp) + 3 ∧
    2 * (n * 2 ^ (double_div n 3).exp) ≤ 2 * (3 * (double_div n 3).num) + 3 := by
  have hn := double_div_normal n 3 h0 (by norm_num) (by norm_num at h ⊢; omega)
    (by norm_num; omega)
  have hr := double_div_nearest n 3 h0 (by norm_num)
  exact ⟨hn.1, hn.2, hr.1, hr.2⟩

set_option maxRecDepth 100000 in
/-- The RFC 1321 test vector for `abc`, by evaluation of the MD5 model. -/
theorem md5_hex_abc : md5_hex (ascii "abc") = ascii "900150983cd24fb0d6963f7d28e17f72" := by
  decide

/-! ## The paths of the four cipher and codec functions -/

/-- Lines 42 and 55 compute `n + 16` as long as that fits an `int`. -/
theorem aes_encrypt_cipher_len_eq (n : Int) (hpos : 0 < n) (hmax : n + 16 ≤ INT_MAX) :
    aes_encrypt_cipher_len n = n + 16 := by
  simp only [INT_MAX] at hmax
  unfold aes_encrypt_cipher_len int_add
  exact to_int32_of_range _ (by omega) (by omega)

/-- Line 90 requests `n + 3` bytes as long as that fits an `int`. -/
theorem from_base64_scratch_len_eq (n : Int) (hpos : 0 < n) (hmax : n + 3 ≤ INT_MAX) :
    from_base64_scratch_len n = n + 3 := by
  simp only [INT_MAX] at hmax
  unfold from_base64_scratch_len int_add
  exact to_int32_of_range _ (by omega) (by omega)

/-- The value returned for a primitive result is its mapped status. -/
theorem mapsStatus_value (r : PrimResult) :
    MapsStatus r (if r.ret_code < 0 then StringVal.null else from_buffer_temp r.out r.ret_code) := by
  by_cases hr : r.ret_code < 0
  · simp [MapsStatus, hr, StringVal.null]
  · simp [MapsStatus, hr, from_buffer_temp]

/-- Guard path of `aes_encrypt`. -/
theorem aes_encrypt_guard (A : AesUtil) (src key : StringVal)
    (h : src.is_null = true ∨ src.len = 0) :
    aes_encrypt A src key = ⟨Outcome.returned StringVal.null, []⟩ := by
  have h2 : src.len = 0 ∨ src.is_null = true := h.symm
  simp [aes_encrypt, h2]

/-- Primitive path of `aes_encrypt`, reached when the scratch size is not negative. -/
theorem aes_encrypt_call (A : AesUtil) (src key : StringVal)
    (hnull : src.is_null = false) (hlen : src.len ≠ 0)
    (hsize : ¬ aes_encrypt_cipher_len src.len < 0) :
    aes_encrypt A src key =
      ⟨Outcome.returned
        (if (A.encrypt AesMode.AES_128_ECB src.ptr src.len
              (if key.is_null = true then none else some key.ptr)
              (if key.is_null = true then 0 else key.len) none true).ret_code < 0
         then StringVal.null
         else from_buffer_temp
          (A.encrypt AesMode.AES_128_ECB src.ptr src.len
              (if key.is_null = true then none else some key.ptr)
              (if key.is_null = true then 0 else key.len) none true).out
          (A.encrypt AesMode.AES_128_ECB src.ptr src.len
              (if key.is_null = true then none else some key.ptr)
              (if key.is_null = true then 0 else key.len) none true).ret_code),
       [Event.new_char (aes_encrypt_cipher_len src.len),
        Event.AesUtil_encrypt src.ptr src.len
          (if key.is_null = true then none else some key.ptr)
          (if key.is_null = true then 0 else key.len)]⟩ := by
  have h2 : ¬ (src.len = 0 ∨ src.is_null = true) := by simp [hnull, hlen]
  cases hk : key.is_null <;> simp [aes_encrypt, h2, hk, hsize]

/-- Throwing path of `aes_encrypt`: a negative scratch size ends the call at
the allocation, before the primitive. -/
theorem aes_encrypt_throws (A : AesUtil) (src key : StringVal)
    (hnull : src.is_null = false) (hlen : src.len ≠ 0)
    (hsize : aes_encrypt_cipher_len src.len < 0) :
    aes_encrypt A src key =
      ⟨Outcome.bad_array_new_length, [Event.new_char (aes_encrypt_cipher_len src.len)]⟩ := by
  have h2 : ¬ (src.len = 0 ∨ src.is_null = true) := by simp [hnull, hlen]
  cases hk : key.is_null <;> simp [aes_encrypt, h2, hk, hsize]

/-- Primitive path of `aes_decrypt`. -/
theorem aes_decrypt_call (A : AesUtil) (src key : StringVal)
    (hnull : src.is_null = false) (hpos : 0 < src.len)
    (hk : key.is_null = false) (hkl : key.len ≠ 0) :
    aes_decrypt A src key =
      ⟨Outcome.returned
        (if (A.decrypt AesMode.AES_128_ECB src.ptr src.len (some key.ptr) key.len none
              true).ret_code < 0
         then StringVal.null
         else from_buffer_temp
          (A.decrypt AesMode.AES_128_ECB src.ptr src.len (some key.ptr) key.len none true).out
          (A.decrypt AesMode.AES_128_ECB src.ptr src.len (some key.ptr) key.len none
            true).ret_code),
       [Event.new_char src.len,
        Event.AesUtil_decrypt src.ptr src.len (some key.ptr) key.len]⟩ := by
  have h1 : src.len ≠ 0 := by omega
  have h2 : ¬ src.len < 0 := by omega
  simp [aes_decrypt, hnull, h1, h2, hk, hkl]

/-- Primitive path of `from_base64`. -/
theorem from_base64_call (B : Base64) (src : StringVal)
    (hnull : src.is_null = false) (hlen : src.len ≠ 0)
    (hsize : ¬ from_base64_scratch_len src.len < 0) :
    from_base64 B src =
      ⟨Outcome.returned
        (if (B.base64_decode2 src.ptr src.len).ret_code < 0 then StringVal.null
         else from_buffer_temp (B.base64_decode2 src.ptr src.len).out
          (B.base64_decode2 src.ptr src.len).ret_code),
       [Event.new_char (from_base64_scratch_len src.len),
        Event.base64_decode2 src.ptr src.len]⟩ := by
  have h2 : ¬ (src.len = 0 ∨ src.is_null = true) := by simp [hnull, hlen]
  simp [from_base64, h2, hsize]

/-- Throwing path of `from_base64`. -/
theorem from_base64_throws (B : Base64) (src : StringVal)
    (hnull : src.is_null = false) (hlen : src.len ≠ 0)
    (hsize : from_base64_scratch_len src.len < 0) :
    from_base64 B src =
      ⟨Outcome.bad_array_new_length, [Event.new_char (from_base64_scratch_len src.len)]⟩ := by
  have h2 : ¬ (src.len = 0 ∨ src.is_null = true) := by simp [hnull, hlen]
  simp [from_base64, h2, hsize]

/-- Primitive path of `to_base64`. -/
theorem to_base64_call (B : Base64) (src : StringVal)
    (hnull : src.is_null = false) (hlen : src.len ≠ 0)
    (hsize : ¬ to_base64_cipher_len src.len < 0) :
    to_base64 B src =
      ⟨Outcome.returned
        (if (B.base64_encode2 src.ptr src.len).ret_code < 0 then StringVal.null
         else from_buffer_temp (B.base64_encode2 src.ptr src.len).out
          (B.base64_encode2 src.ptr src.len).ret_code),
       [Event.new_char (to_base64_cipher_len src.len),
        Event.base64_encode2 src.ptr src.len]⟩ := by
  have h2 : ¬ (src.len = 0 ∨ src.is_null = true) := by simp [hnull, hlen]
  simp [to_base64, h2, hsize]

/-- Throwing path of `to_base64`. -/
theorem to_base64_throws (B : Base64) (src : StringVal)
    (hnull : src.is_null = false) (hlen : src.len ≠ 0)
    (hsize : to_base64_cipher_len src.len < 0) :
    to_base64 B src =
      ⟨Outcome.bad_array_new_length, [Event.new_char (to_base64_cipher_len src.len)]⟩ := by
  have h2 : ¬ (src.len = 0 ∨ src.is_null = true) := by simp [hnull, hlen]
  simp [to_base64, h2, hsize]

/-- The long buffer is non-null, has length `INT_MAX` and is well formed. -/
theorem long_src_facts :
    long_src.is_null = false ∧ long_src.len = 2147483647 ∧ long_src.WellFormed := by
  refine ⟨rfl, rfl, ?_⟩
  unfold StringVal.WellFormed long_src
  rw [List.length_replicate]
  rfl

/-- At the long buffer `aes_encrypt` throws out of its allocation, whatever
the primitive and the key. -/
theorem aes_encrypt_long_src (A : AesUtil) (key : StringVal) :
    aes_encrypt A long_src key =
      ⟨Outcome.bad_array_new_length, [Event.new_char (-2147483633)]⟩ := by
  have hc : aes_encrypt_cipher_len long_src.len = -2147483633 := by decide
  have h := aes_encrypt_throws A long_src key rfl (by decide) (by rw [hc]; decide)
  rw [hc] at h
  exact h

/-- At the long buffer `to_base64` throws out of its allocation, whatever the
codec. -/
theorem to_base64_long_src (B : Base64) :
    to_base64 B long_src = ⟨Outcome.bad_array_new_length, [Event.new_char (-1431655763)]⟩ := by
  have hc : to_base64_cipher_len long_src.len = -1431655763 := by decide
  have h := to_base64_throws B long_src rfl (by decide) (by rw [hc]; decide)
  rw [hc] at h
  exact h

/-- At the long buffer `from_base64` throws out of its allocation, whatever
the codec. -/
theorem from_base64_long_src (B : Base64) :
    from_base64 B long_src = ⟨Outcome.bad_array_new_length, [Event.new_char (-2147483646)]⟩ := by
  have hc : from_base64_scratch_len long_src.len = -2147483646 := by decide
  have h := from_base64_throws B long_src rfl (by decide) (by rw [hc]; decide)
  rw [hc] at h
  exact h

/-! ## Null policy and status mapping -/

/-- C4, as amended: `aes_encrypt` returns null, with no allocation and no
primitive call, whenever `src` is null or has length 0, whatever the key. For a
non-empty `src` of length `n` with `n + 16 ≤ INT_MAX` and a null key, the
encrypt primitive is invoked with a null key pointer and key length 0 and the
returned value is the mapping of its status. For every non-empty `src` and a
null key, a null result comes only with a negative status of the primitive;
and when the primitive does not depend on the key pointer at key length 0, the
call ends as it does for an empty non-null key. -/
theorem aes_encrypt_null_policy (A : AesUtil) (src key : StringVal) :
    ((src.is_null = true ∨ src.len = 0) →
      aes_encrypt A src key = ⟨Outcome.returned StringVal.null, []⟩) ∧
    (src.is_null = false → 0 < src.len → src.len + 16 ≤ INT_MAX → key.is_null = true →
      (aes_encrypt A src key).trace =
        [Event.new_char (src.len + 16), Event.AesUtil_encrypt src.ptr src.len none 0] ∧
      ∃ v, (aes_encrypt A src key).ret = Outcome.returned v ∧
        MapsStatus (A.encrypt AesMode.AES_128_ECB src.ptr src.len none 0 none true) v) ∧
    (src.is_null = false → src.len ≠ 0 → key.is_null = true →
      (aes_encrypt A src key).ret = Outcome.returned StringVal.null →
      Event.AesUtil_encrypt src.ptr src.len none 0 ∈ (aes_encrypt A src key).trace ∧
      (A.encrypt AesMode.AES_128_ECB src.ptr src.len none 0 none true).ret_code < 0) ∧
    (A.IgnoresKeyPointerAtLengthZero → src.is_null = false → src.len ≠ 0 →
      key.is_null = true → ∀ key2 : StringVal, key2.is_null = false → key2.len = 0 →
      (aes_encrypt A src key).ret = (aes_encrypt A src key2).ret) := by
  refine ⟨aes_encrypt_guard A src key, ?_, ?_, ?_⟩
  · intro hn hpos hmax hk
    have hc := aes_encrypt_cipher_len_eq src.len hpos hmax
    have hsize : ¬ aes_encrypt_cipher_len src.len < 0 := by rw [hc]; omega
    rw [aes_encrypt_call A src key hn (by omega) hsize, hc]
    simp only [hk, if_true]
    exact ⟨trivial, _, rfl, mapsStatus_value _⟩
  · intro hn hl hk hret
    by_cases hsize : aes_encrypt_cipher_len src.len < 0
    · rw [aes_encrypt_throws A src key hn hl hsize] at hret
      cases hret
    · rw [aes_encrypt_call A src key hn hl hsize] at hret ⊢
      simp only [hk, if_true] at hret ⊢
      refine ⟨by simp, ?_⟩
      by_contra hr
      rw [if_neg hr] at hret
      simp [from_buffer_temp, StringVal.null] at hret
  · intro hA hn hl hk key2 hk2 hkl2
    by_cases hsize : aes_encrypt_cipher_len src.len < 0
    · rw [aes_encrypt_throws A src key hn hl hsize, aes_encrypt_throws A src key2 hn hl hsize]
    · rw [aes_encrypt_call A src key hn hl hsize, aes_encrypt_call A src key2 hn hl hsize]
      simp only [hk, hk2, hkl2, if_true, if_false, Bool.false_eq_true]
      rw [hA AesMode.AES_128_ECB src.ptr src.len key2.ptr none true]

/-- Witness of C4 with the stand-in cipher: the empty source gives null under a
16-byte key, and the source `abc` under a null key gives the 19 bytes the
primitive stored, as it does under the empty non-null key. -/
theorem aes_encrypt_null_policy_witness :
    aes_encrypt copy_cipher (StringVal.ofBytes []) key16 = ⟨Outcome.returned StringVal.null, []⟩ ∧
    (aes_encrypt copy_cipher (StringVal.ofBytes (ascii "abc")) StringVal.null).trace =
      [Event.new_char ((StringVal.ofBytes (ascii "abc")).len + 16),
       Event.AesUtil_encrypt (StringVal.ofBytes (ascii "abc")).ptr
        (StringVal.ofBytes (ascii "abc")).len none 0] ∧
    (aes_encrypt copy_cipher (StringVal.ofBytes (ascii "abc")) StringVal.null).ret
      = (aes_encrypt copy_cipher (StringVal.ofBytes (ascii "abc")) (StringVal.ofBytes [])).ret :=
  ⟨(aes_encrypt_null_policy copy_cipher (StringVal.ofBytes []) key16).1 (Or.inr rfl),
   ((aes_encrypt_null_policy copy_cipher (StringVal.ofBytes (ascii "abc")) StringVal.null).2.1
      rfl (by decide) (by decide) rfl).1,
   (aes_encrypt_null_policy copy_cipher (StringVal.ofBytes (ascii "abc")) StringVal.null).2.2.2
      (fun _ _ _ _ _ _ => rfl) rfl (by decide) rfl (StringVal.ofBytes []) rfl rfl⟩

/-- Counterexample to C4 as stated: at the non-empty source of `INT_MAX` bytes
and a null key the scratch size `src.len + 16` has wrapped to -2147483633,
`new char[...]` throws and the encrypt primitive is not invoked, so the result
is not what the primitive produces; and with a primitive that refuses a null
key pointer the source `abc` gives null under the null key but 19 bytes under
the empty non-null key. -/
theorem aes_encrypt_null_key_long_src :
    long_src.is_null = false ∧ long_src.len = 2147483647 ∧ long_src.WellFormed ∧
    StringVal.null.is_null = true ∧
    (∀ A : AesUtil, aes_encrypt A long_src StringVal.null =
      ⟨Outcome.bad_array_new_length, [Event.new_char (-2147483633)]⟩) ∧
    (aes_encrypt strict_cipher (StringVal.ofBytes (ascii "abc")) StringVal.null).ret
      = Outcome.returned StringVal.null ∧
    (aes_encrypt strict_cipher (StringVal.ofBytes (ascii "abc")) (StringVal.ofBytes [])).ret
      = Outcome.returned
          (StringVal.ofBytes (ascii "abc" ++ List.replicate 16 16)) :=
  ⟨long_src_facts.1, long_src_facts.2.1, long_src_facts.2.2, rfl,
   fun A => aes_encrypt_long_src A StringVal.null, by decide, by decide⟩

/-- C5: `aes_decrypt` returns null whenever `src` is null, `src` has length 0,
`key` is null or `key` has length 0, and then allocates nothing and does not
invoke the decrypt primitive. For a non-empty `src` and a null key
`aes_encrypt` is not null on account of the key: it returns null only after
invoking its primitive and on a negative status, and for a length `n` with
`n + 16 ≤ INT_MAX` it does invoke the primitive and returns null exactly on a
negative status. -/
theorem aes_decrypt_null_policy (A : AesUtil) (src key : StringVal)
    (h : src.is_null = true ∨ src.len = 0 ∨ key.is_null = true ∨ key.len = 0) :
    aes_decrypt A src key = ⟨Outcome.returned StringVal.null, []⟩ ∧
    (src.is_null = false → src.len ≠ 0 → key.is_null = true →
      (aes_decrypt A src key).ret = Outcome.returned StringVal.null ∧
      ((aes_encrypt A src key).ret = Outcome.returned StringVal.null →
        Event.AesUtil_encrypt src.ptr src.len none 0 ∈ (aes_encrypt A src key).trace ∧
        (A.encrypt AesMode.AES_128_ECB src.ptr src.len none 0 none true).ret_code < 0) ∧
      (0 < src.len → src.len + 16 ≤ INT_MAX →
        Event.AesUtil_encrypt src.ptr src.len none 0 ∈ (aes_encrypt A src key).trace ∧
        ∃ v, (aes_encrypt A src key).ret = Outcome.returned v ∧
          (v.is_null = true ↔
            (A.encrypt AesMode.AES_128_ECB src.ptr src.len none 0 none true).ret_code < 0))) := by
  have hd : aes_decrypt A src key = ⟨Outcome.returned StringVal.null, []⟩ := by
    simp [aes_decrypt, h]
  refine ⟨hd, ?_⟩
  intro hn hl hk
  refine ⟨by rw [hd], ?_, ?_⟩
  · intro hret
    by_cases hsize : aes_encrypt_cipher_len src.len < 0
    · rw [aes_encrypt_throws A src key hn hl hsize] at hret
      cases hret
    · rw [aes_encrypt_call A src key hn hl hsize] at hret ⊢
      simp only [hk, if_true] at hret ⊢
      refine ⟨by simp, ?_⟩
      by_contra hr
      rw [if_neg hr] at hret
      simp [from_buffer_temp, StringVal.null] at hret
  · intro hpos hmax
    have hc := aes_encrypt_cipher_len_eq src.len hpos hmax
    have hsize : ¬ aes_encrypt_cipher_len src.len < 0 := by rw [hc]; omega
    rw [aes_encrypt_call A src key hn hl hsize]
    simp only [hk, if_true]
    exact ⟨by simp, _, rfl, (mapsStatus_value _).1⟩

/-- Witness of C5 with the stand-in cipher: a 19-byte source under a null key
decrypts to null without any step, while encrypting it under the null key
invokes the primitive. -/
theorem aes_decrypt_null_policy_witness :
    aes_decrypt copy_cipher (StringVal.ofBytes (ascii "abc0123456789abcdef")) StringVal.null
      = ⟨Outcome.returned StringVal.null, []⟩ ∧
    Event.AesUtil_encrypt (StringVal.ofBytes (ascii "abc0123456789abcdef")).ptr
        (StringVal.ofBytes (ascii "abc0123456789abcdef")).len none 0
      ∈ (aes_encrypt copy_cipher (StringVal.ofBytes (ascii "abc0123456789abcdef"))
          StringVal.null).trace ∧
    (aes_encrypt copy_cipher (StringVal.ofBytes (ascii "abc0123456789abcdef"))
      StringVal.null).ret ≠ Outcome.returned StringVal.null :=
  ⟨(aes_decrypt_null_policy copy_cipher (StringVal.ofBytes (ascii "abc0123456789abcdef"))
      StringVal.null (Or.inr (Or.inr (Or.inl rfl)))).1,
   (((aes_decrypt_null_policy copy_cipher (StringVal.ofBytes (ascii "abc0123456789abcdef"))
      StringVal.null (Or.inr (Or.inr (Or.inl rfl)))).2 rfl (by decide) rfl).2.2
      (by decide) (by decide)).1,
   by decide⟩

/-- C6, as amended: on inputs that pass the null/empty guard and whose length
`n` is positive and keeps the scratch size in the `int` range (`n + 16 ≤
INT_MAX` for `aes_encrypt`, `n + 3 ≤ INT_MAX` for `from_base64`,
`n ≤ 1610612733` for `to_base64`, any positive `n` for `aes_decrypt`), each of
the four functions returns, and returns null exactly when its primitive
reports a negative status, and otherwise a non-null buffer whose length is the
reported count and whose bytes are the first that many bytes the primitive
stored in the scratch buffer. -/
theorem status_mapping (A : AesUtil) (B : Base64) (src key : StringVal)
    (hnull : src.is_null = false) (hpos : 0 < src.len) :
    (src.len + 16 ≤ INT_MAX →
      ∃ v, (aes_encrypt A src key).ret = Outcome.returned v ∧
        MapsStatus
          (A.encrypt AesMode.AES_128_ECB src.ptr src.len
            (if key.is_null = true then none else some key.ptr)
            (if key.is_null = true then 0 else key.len) none true) v) ∧
    (key.is_null = false → key.len ≠ 0 →
      ∃ v, (aes_decrypt A src key).ret = Outcome.returned v ∧
        MapsStatus
          (A.decrypt AesMode.AES_128_ECB src.ptr src.len (some key.ptr) key.len none true) v) ∧
    (src.len + 3 ≤ INT_MAX →
      ∃ v, (from_base64 B src).ret = Outcome.returned v ∧
        MapsStatus (B.base64_decode2 src.ptr src.len) v) ∧
    (src.len ≤ 1610612733 →
      ∃ v, (to_base64 B src).ret = Outcome.returned v ∧
        MapsStatus (B.base64_encode2 src.ptr src.len) v) := by
  have hlen : src.len ≠ 0 := by omega
  refine ⟨?_, ?_, ?_, ?_⟩
  · intro hmax
    have hc := aes_encrypt_cipher_len_eq src.len hpos hmax
    rw [aes_encrypt_call A src key hnull hlen (by rw [hc]; omega)]
    exact ⟨_, rfl, mapsStatus_value _⟩
  · intro hk hkl
    rw [aes_decrypt_call A src key hnull hpos hk hkl]
    exact ⟨_, rfl, mapsStatus_value _⟩
  · intro hmax
    have hc := from_base64_scratch_len_eq src.len hpos hmax
    rw [from_base64_call B src hnull hlen (by rw [hc]; omega)]
    exact ⟨_, rfl, mapsStatus_value _⟩
  · intro hmax
    have hc := to_base64_cipher_len_eq src.len hpos hmax
    rw [to_base64_call B src hnull hlen (by rw [hc]; omega)]
    exact ⟨_, rfl, mapsStatus_value _⟩

/-- Witness of C6 with the stand-in primitives at the 19-byte source
`abc0123456789abcdef` and a 16-byte key: the guard is passed, the four calls
return, and the values are the mapped statuses. -/
theorem status_mapping_witness :
    (StringVal.ofBytes (ascii "abc0123456789abcdef")).is_null = false ∧
    (0 : Int) < (StringVal.ofBytes (ascii "abc0123456789abcdef")).len ∧
    (∃ v, (aes_encrypt copy_cipher (StringVal.ofBytes (ascii "abc0123456789abcdef")) key16).ret
        = Outcome.returned v ∧
      MapsStatus
        (copy_cipher.encrypt AesMode.AES_128_ECB
          (StringVal.ofBytes (ascii "abc0123456789abcdef")).ptr
          (StringVal.ofBytes (ascii "abc0123456789abcdef")).len
          (if key16.is_null = true then none else some key16.ptr)
          (if key16.is_null = true then 0 else key16.len) none true) v) ∧
    (∃ v, (aes_decrypt copy_cipher (StringVal.ofBytes (ascii "abc0123456789abcdef")) key16).ret
        = Outcome.returned v ∧
      MapsStatus
        (copy_cipher.decrypt AesMode.AES_128_ECB
          (StringVal.ofBytes (ascii "abc0123456789abcdef")).ptr
          (StringVal.ofBytes (ascii "abc0123456789abcdef")).len (some key16.ptr) key16.len
          none true) v) ∧
    (∃ v, (from_base64 copy_codec (StringVal.ofBytes (ascii "abc0123456789abcdef"))).ret
        = Outcome.returned v ∧
      MapsStatus
        (copy_codec.base64_decode2 (StringVal.ofBytes (ascii "abc0123456789abcdef")).ptr
          (StringVal.ofBytes (ascii "abc0123456789abcdef")).len) v) ∧
    (∃ v, (to_base64 copy_codec (StringVal.ofBytes (ascii "abc0123456789abcdef"))).ret
        = Outcome.returned v ∧
      MapsStatus
        (copy_codec.base64_encode2 (StringVal.ofBytes (ascii "abc0123456789abcdef")).ptr
          (StringVal.ofBytes (ascii "abc0123456789abcdef")).len) v) :=
  ⟨rfl, by decide,
   (status_mapping copy_cipher copy_codec (StringVal.ofBytes (ascii "abc0123456789abcdef")) key16
      rfl (by decide)).1 (by decide),
   (status_mapping copy_cipher copy_codec (StringVal.ofBytes (ascii "abc0123456789abcdef")) key16
      rfl (by decide)).2.1 rfl (by decide),
   (status_mapping copy_cipher copy_codec (StringVal.ofBytes (ascii "abc0123456789abcdef")) key16
      rfl (by decide)).2.2.1 (by decide),
   (status_mapping copy_cipher copy_codec (StringVal.ofBytes (ascii "abc0123456789abcdef")) key16
      rfl (by decide)).2.2.2 (by decide)⟩

/-- Counterexample to C6 as stated: the non-null source of `INT_MAX` bytes
passes the guard of `aes_encrypt`, `from_base64` and `to_base64`, yet each of
them ends in a third way: the scratch size has wrapped negative, `new char[...]`
throws before the primitive is invoked, and nothing is returned, neither null
nor a buffer. -/
theorem status_mapping_long_src :
    long_src.is_null = false ∧ long_src.len = 2147483647 ∧ long_src.WellFormed ∧
    aes_encrypt copy_cipher long_src key16 =
      ⟨Outcome.bad_array_new_length, [Event.new_char (-2147483633)]⟩ ∧
    from_base64 copy_codec long_src =
      ⟨Outcome.bad_array_new_length, [Event.new_char (-2147483646)]⟩ ∧
    to_base64 copy_codec long_src =
      ⟨Outcome.bad_array_new_length, [Event.new_char (-1431655763)]⟩ ∧
    (∀ v : StringVal, (to_base64 copy_codec long_src).ret ≠ Outcome.returned v) :=
  ⟨long_src_facts.1, long_src_facts.2.1, long_src_facts.2.2,
   aes_encrypt_long_src copy_cipher key16, from_base64_long_src copy_codec,
   to_base64_long_src copy_codec,
   fun v h => by rw [to_base64_long_src] at h; cases h⟩

/-! ## The digest functions -/

/-- C3: `md5sum` over a list of nullable arguments equals `md5` of the
concatenation, in order, of the bytes of the non-null arguments; `md5sum()` and
`md5sum(null, null)` equal `md5("")`, and `md5sum("a", "b")` equals `md5("ab")`. -/
theorem md5sum_concat (args : List StringVal) :
    md5sum (args.length : Int) args = md5 (StringVal.ofBytes (concat_bytes args)) ∧
    md5sum 0 [] = md5 (StringVal.ofBytes []) ∧
    md5sum 2 [StringVal.null, StringVal.null] = md5 (StringVal.ofBytes []) ∧
    md5sum 2 [StringVal.ofBytes (ascii "a"), StringVal.ofBytes (ascii "b")]
      = md5 (StringVal.ofBytes (ascii "ab")) := by
  have hgen : ∀ l : List StringVal,
      md5sum (l.length : Int) l = md5 (StringVal.ofBytes (concat_bytes l)) := by
    intro l
    rw [md5sum_eq, md5_eq _ rfl, bytes_ofBytes]
    simp
  refine ⟨hgen args, hgen [], hgen [StringVal.null, StringVal.null], ?_⟩
  have h := hgen [StringVal.ofBytes (ascii "a"), StringVal.ofBytes (ascii "b")]
  have hc : concat_bytes [StringVal.ofBytes (ascii "a"), StringVal.ofBytes (ascii "b")]
      = ascii "ab" := by decide
  rw [hc] at h
  exact h

/-- C7: `md5` returns null exactly when `src` is null; for every non-null
`src`, the zero-length one included, it returns the non-null buffer of the 32
hexadecimal characters of the digest of the bytes of `src`; `md5("")` is
`d41d8cd98f00b204e9800998ecf8427e`, whereas the cipher and base64 functions
map the empty input to null. -/
theorem md5_null_iff (src : StringVal) :
    ((md5 src).is_null = true ↔ src.is_null = true) ∧
    (src.is_null = false →
      md5 src = ⟨false, 32, md5_hex src.bytes⟩ ∧ (md5 src).ptr.length = 32) ∧
    md5 (StringVal.ofBytes []) = StringVal.ofBytes (ascii "d41d8cd98f00b204e9800998ecf8427e") ∧
    (∀ (A : AesUtil) (B : Base64) (key : StringVal),
      (aes_encrypt A (StringVal.ofBytes []) key).ret = Outcome.returned StringVal.null ∧
      (aes_decrypt A (StringVal.ofBytes []) key).ret = Outcome.returned StringVal.null ∧
      (from_base64 B (StringVal.ofBytes [])).ret = Outcome.returned StringVal.null ∧
      (to_base64 B (StringVal.ofBytes [])).ret = Outcome.returned StringVal.null) := by
  refine ⟨?_, ?_, ?_, ?_⟩
  · cases h : src.is_null
    · rw [md5_eq src h]
    · simp [md5, h, StringVal.null]
  · intro h
    rw [md5_eq src h]
    exact ⟨rfl, md5_hex_length _⟩
  · rw [md5_eq _ rfl, bytes_ofBytes, md5_hex_empty]
    rfl
  · intro A B key
    simp [aes_encrypt, aes_decrypt, from_base64, to_base64, StringVal.ofBytes]

/-- Witness of C7: the non-null, zero-length buffer has a non-null digest of 32
characters. -/
theorem md5_null_iff_witness :
    (StringVal.ofBytes []).is_null = false ∧ (md5 (StringVal.ofBytes [])).is_null = false ∧
    (md5 (StringVal.ofBytes [])).ptr.length = 32 :=
  ⟨rfl, by rw [((md5_null_iff (StringVal.ofBytes [])).2.1 rfl).1],
   ((md5_null_iff (StringVal.ofBytes [])).2.1 rfl).2⟩

/-- C8: `md5sum` never returns null: for every argument count and every list
of nullable arguments, the empty list and the all-null lists included, the
result is the non-null buffer of the 32 hexadecimal characters of the digest of
the bytes absorbed. -/
theorem md5sum_never_null (num_args : Int) (args : List StringVal) :
    (md5sum num_args args).is_null = false ∧
    (md5sum num_args args).len = 32 ∧
    (md5sum num_args args).ptr = md5_hex (concat_bytes (args.take num_args.toNat)) ∧
    (md5sum num_args args).ptr.length = 32 ∧
    (md5sum 0 []).is_null = false ∧
    (md5sum 2 [StringVal.null, StringVal.null]).is_null = false := by
  rw [md5sum_eq, md5sum_eq, md5sum_eq]
  exact ⟨rfl, rfl, rfl, md5_hex_length _, rfl, rfl⟩

/-! ## Round trips -/

/-- C1, as amended: under the round-trip assumption on the cipher primitive,
for every non-null well-formed `src` of length `n` with `n + 16 ≤ INT_MAX` and
every non-null 16-byte key, `aes_encrypt` returns a buffer whose `aes_decrypt`
under the same key returns a buffer equal to `src` when `src` is not empty;
when `src` is empty, `aes_encrypt` returns null and `aes_decrypt` of null
returns null. -/
theorem aes_round_trip (A : AesUtil) (src key : StringVal) (hA : A.RoundTrip)
    (hnull : src.is_null = false) (hwf : src.WellFormed) (hmax : src.len + 16 ≤ INT_MAX)
    (hk : key.is_null = false) (hklen : key.len = 16) (hkwf : key.WellFormed) :
    (src.len ≠ 0 →
      ∃ c, (aes_encrypt A src key).ret = Outcome.returned c ∧
        (aes_decrypt A c key).ret = Outcome.returned src) ∧
    (src.len = 0 →
      (aes_encrypt A src key).ret = Outcome.returned StringVal.null ∧
      (aes_decrypt A StringVal.null key).ret = Outcome.returned StringVal.null) := by
  refine ⟨?_, ?_⟩
  · intro hne
    have hpos : 0 < src.len := by
      have : src.len = (src.ptr.length : Int) := hwf
      omega
    have hc := aes_encrypt_cipher_len_eq src.len hpos hmax
    rw [aes_encrypt_call A src key hnull hne (by rw [hc]; omega)]
    refine ⟨_, rfl, ?_⟩
    obtain ⟨sn, sl, sp⟩ := src
    obtain ⟨kn, kl, kp⟩ := key
    simp only [StringVal.WellFormed] at hwf hkwf hnull hk hklen hmax hne
    subst hnull hk hwf hklen
    have hkp : kp.length = 16 := by omega
    have hsp : sp ≠ [] := by
      intro h
      apply hne
      simp [h]
    obtain ⟨h1, h2, h3⟩ := hA sp kp hsp hmax hkp
    have e1 : ¬ (A.encrypt AesMode.AES_128_ECB sp sp.length (some kp) 16 none true).ret_code < 0 := by
      omega
    simp only [Bool.false_eq_true, if_false, if_neg e1]
    rw [aes_decrypt_call A _ _ rfl (by simpa [from_buffer_temp] using h1) rfl (by simp)]
    simp [from_buffer_temp, h2, h3]
  · intro h0
    exact ⟨by rw [aes_encrypt_guard A src key (Or.inr h0)], by simp [aes_decrypt, StringVal.null]⟩

/-- Witness of C1 with the stand-in cipher, which meets the round-trip
assumption with statuses that fit an `int`: the source `abc` under the 16-byte
key is encrypted to a buffer that decrypts to `abc`. -/
theorem aes_round_trip_witness :
    copy_cipher.RoundTrip ∧ copy_cipher.IntStatus ∧
    ∃ c, (aes_encrypt copy_cipher (StringVal.ofBytes (ascii "abc")) key16).ret
        = Outcome.returned c ∧
      (aes_decrypt copy_cipher c key16).ret = Outcome.returned (StringVal.ofBytes (ascii "abc")) :=
  ⟨copy_cipher_roundTrip, copy_cipher_intStatus,
   (aes_round_trip copy_cipher (StringVal.ofBytes (ascii "abc")) key16 copy_cipher_roundTrip
      rfl (by decide) (by decide) rfl rfl (by decide)).1 (by decide)⟩

/-- Counterexample to C1 as stated: with a cipher whose decrypt undoes its
encrypt, the empty non-null source under a 16-byte key is encrypted to null,
and decrypting null returns null, not the empty buffer; and at the source of
`INT_MAX` bytes `aes_encrypt` throws out of its allocation and returns
nothing to decrypt. -/
theorem aes_round_trip_empty_src :
    copy_cipher.RoundTrip ∧
    (StringVal.ofBytes []).is_null = false ∧
    key16.is_null = false ∧ key16.len = 16 ∧ key16.ptr.length = 16 ∧
    (aes_encrypt copy_cipher (StringVal.ofBytes []) key16).ret
      = Outcome.returned StringVal.null ∧
    (aes_decrypt copy_cipher StringVal.null key16).ret = Outcome.returned StringVal.null ∧
    StringVal.null ≠ StringVal.ofBytes [] ∧
    long_src.is_null = false ∧ long_src.WellFormed ∧
    aes_encrypt copy_cipher long_src key16 =
      ⟨Outcome.bad_array_new_length, [Event.new_char (-2147483633)]⟩ :=
  ⟨copy_cipher_roundTrip, rfl, rfl, rfl, by decide, by decide, by decide, by decide,
   long_src_facts.1, long_src_facts.2.2, aes_encrypt_long_src copy_cipher key16⟩

/-- C2, as amended: under the round-trip assumption on the codec, for every
non-null well-formed `src` of at most 1610612733 bytes, `to_base64` returns a
buffer whose `from_base64` returns a buffer equal to `src` when `src` is not
empty; when `src` is empty, `to_base64` returns null and `from_base64` of null
returns null. -/
theorem base64_round_trip (B : Base64) (src : StringVal) (hB : B.RoundTrip)
    (hnull : src.is_null = false) (hwf : src.WellFormed) (hmax : src.len ≤ 1610612733) :
    (src.len ≠ 0 →
      ∃ c, (to_base64 B src).ret = Outcome.returned c ∧
        (from_base64 B c).ret = Outcome.returned src) ∧
    (src.len = 0 →
      (to_base64 B src).ret = Outcome.returned StringVal.null ∧
      (from_base64 B StringVal.null).ret = Outcome.returned StringVal.null) := by
  refine ⟨?_, ?_⟩
  · intro hne
    have hpos : 0 < src.len := by
      have : src.len = (src.ptr.length : Int) := hwf
      omega
    have hc := to_base64_cipher_len_eq src.len hpos hmax
    rw [to_base64_call B src hnull hne (by rw [hc]; omega)]
    refine ⟨_, rfl, ?_⟩
    obtain ⟨sn, sl, sp⟩ := src
    simp only [StringVal.WellFormed] at hwf hnull hmax hne
    subst hnull hwf
    have hsp : sp ≠ [] := by
      intro h
      apply hne
      simp [h]
    obtain ⟨h1, h1b, h2, h3⟩ := hB sp hsp hmax
    have e1 : ¬ (B.base64_encode2 sp sp.length).ret_code < 0 := by omega
    simp only [if_neg e1]
    have hs := from_base64_scratch_len_eq (B.base64_encode2 sp sp.length).ret_code h1 h1b
    rw [from_base64_call B _ rfl (by simp only [from_buffer_temp]; omega)
      (by simp only [from_buffer_temp]; rw [hs]; omega)]
    simp [from_buffer_temp, h2, h3]
  · intro h0
    have hg : src.len = 0 ∨ src.is_null = true := Or.inl h0
    exact ⟨by simp [to_base64, hg], by simp [from_base64, StringVal.null]⟩

/-- Witness of C2 with the stand-in codec, which meets the round-trip
assumption with statuses that fit an `int`: the source `foo` is encoded to a
buffer that decodes to `foo`. -/
theorem base64_round_trip_witness :
    copy_codec.RoundTrip ∧ copy_codec.IntStatus ∧
    ∃ c, (to_base64 copy_codec (StringVal.ofBytes (ascii "foo"))).ret = Outcome.returned c ∧
      (from_base64 copy_codec c).ret = Outcome.returned (StringVal.ofBytes (ascii "foo")) :=
  ⟨copy_codec_roundTrip, copy_codec_intStatus,
   (base64_round_trip copy_codec (StringVal.ofBytes (ascii "foo")) copy_codec_roundTrip
      rfl (by decide) (by decide)).1 (by decide)⟩

/-- Counterexample to C2 as stated: with a decoder that undoes the encoder, the
empty non-null source is encoded to null, and decoding null returns null, not
the empty buffer; and at the source of `INT_MAX` bytes `to_base64` throws out
of its allocation and returns nothing to decode. -/
theorem base64_round_trip_empty_src :
    copy_codec.RoundTrip ∧
    (StringVal.ofBytes []).is_null = false ∧
    (to_base64 copy_codec (StringVal.ofBytes [])).ret = Outcome.returned StringVal.null ∧
    (from_base64 copy_codec StringVal.null).ret = Outcome.returned StringVal.null ∧
    StringVal.null ≠ StringVal.ofBytes [] ∧
    long_src.is_null = false ∧ long_src.WellFormed ∧
    to_base64 copy_codec long_src =
      ⟨Outcome.bad_array_new_length, [Event.new_char (-1431655763)]⟩ :=
  ⟨copy_codec_roundTrip, rfl, by decide, by decide, by decide,
   long_src_facts.1, long_src_facts.2.2, to_base64_long_src copy_codec⟩

/-! ## Scratch sizes -/

/-- C9, as amended: for every non-empty `src` of length `n` with
`n ≤ 1610612733` (so that `ceil(n / 3) * 4 + 1` fits a C++ `int`), the scratch
size `to_base64` computes at line 104 equals the integer `ceil(n / 3) * 4 + 1`,
is strictly greater than the base64 output length `4 * ceil(n / 3)`, and is the
size of the one scratch allocation made before the encoder is invoked. -/
theorem to_base64_scratch_size (B : Base64) (src : StringVal)
    (hnull : src.is_null = false) (hpos : 0 < src.len) (hmax : src.len ≤ 1610612733) :
    to_base64_cipher_len src.len = ⌈(src.len : ℚ) / 3⌉ * 4 + 1 ∧
    4 * ⌈(src.len : ℚ) / 3⌉ < to_base64_cipher_len src.len ∧
    (to_base64 B src).trace =
      [Event.new_char (⌈(src.len : ℚ) / 3⌉ * 4 + 1), Event.base64_encode2 src.ptr src.len] := by
  have h := to_base64_cipher_len_eq src.len hpos hmax
  rw [ceil_div_three]
  refine ⟨h, by omega, ?_⟩
  rw [to_base64_call B src hnull (by omega) (by rw [h]; omega), h]

/-- Witness of C9 at the 4-byte source `abcd`: the scratch size is 9 and the
encoded length `4 * ceil(4 / 3)` is 8. -/
theorem to_base64_scratch_size_witness :
    (0 : Int) < (StringVal.ofBytes (ascii "abcd")).len ∧
    to_base64_cipher_len 4 = 9 ∧
    to_base64_cipher_len (StringVal.ofBytes (ascii "abcd")).len
      = ⌈((StringVal.ofBytes (ascii "abcd")).len : ℚ) / 3⌉ * 4 + 1 :=
  ⟨by decide, by decide,
   (to_base64_scratch_size copy_codec (StringVal.ofBytes (ascii "abcd")) rfl (by decide)
      (by decide)).1⟩

/-- Counterexample to C9 as stated: at the positive `int` length
`n = 2147483647` the value `ceil(n / 3) * 4 + 1` is 2863311533, which does not
fit an `int`; the narrowed scratch size is -1431655763, which is neither that
integer nor greater than the output length `4 * ceil(n / 3)`. The first length
at which the narrowing wraps is 1610612734. -/
theorem to_base64_scratch_size_overflow :
    (0 : Int) < 2147483647 ∧ (2147483647 : Int) ≤ INT_MAX ∧
    ⌈((2147483647 : Int) : ℚ) / 3⌉ * 4 + 1 = 2863311533 ∧
    to_base64_cipher_len 2147483647 = -1431655763 ∧
    to_base64_cipher_len 1610612734 = -2147483647 ∧
    to_base64_cipher_len 2147483647 ≠ ⌈((2147483647 : Int) : ℚ) / 3⌉ * 4 + 1 ∧
    ¬ (4 * ⌈((2147483647 : Int) : ℚ) / 3⌉ < to_base64_cipher_len 2147483647) ∧
    long_src.is_null = false ∧ long_src.len = 2147483647 ∧ long_src.WellFormed ∧
    (to_base64 copy_codec long_src).trace.head? = some (Event.new_char (-1431655763)) := by
  have hc : to_base64_cipher_len 2147483647 = -1431655763 := by decide
  rw [ceil_div_three, hc, to_base64_long_src]
  exact ⟨by decide, by decide, by decide, rfl, by decide, by decide, by decide,
    long_src_facts.1, long_src_facts.2.1, long_src_facts.2.2, rfl⟩

/-- C10, as amended: for every non-empty `src` of length `n` with
`n + 16 ≤ INT_MAX`, the scratch `aes_encrypt` allocates, on the null-key and on
the keyed path, has the size `n + 16`, exactly one 16-byte block more than `n`,
and that is at least the padded ciphertext length `(n / 16 + 1) * 16`. -/
theorem aes_encrypt_scratch_size (A : AesUtil) (src key : StringVal)
    (hnull : src.is_null = false) (hpos : 0 < src.len) (hmax : src.len + 16 ≤ INT_MAX) :
    aes_encrypt_cipher_len src.len = src.len + 16 ∧
    aes_encrypt_cipher_len src.len - src.len = 16 ∧
    (src.len / 16 + 1) * 16 ≤ aes_encrypt_cipher_len src.len ∧
    (aes_encrypt A src key).trace.head? = some (Event.new_char (src.len + 16)) ∧
    (key.is_null = true → (aes_encrypt A src key).trace =
      [Event.new_char (src.len + 16), Event.AesUtil_encrypt src.ptr src.len none 0]) ∧
    (key.is_null = false → (aes_encrypt A src key).trace =
      [Event.new_char (src.len + 16),
       Event.AesUtil_encrypt src.ptr src.len (some key.ptr) key.len]) := by
  have h := aes_encrypt_cipher_len_eq src.len hpos hmax
  have hrun := aes_encrypt_call A src key hnull (by omega) (by rw [h]; omega)
  rw [h] at hrun
  refine ⟨h, by omega, by omega, ?_, ?_, ?_⟩
  · rw [hrun]
    rfl
  · intro hk
    rw [hrun]
    simp [hk]
  · intro hk
    rw [hrun]
    simp [hk]

/-- Witness of C10 at the 19-byte source `abc0123456789abcdef`: the scratch has
35 bytes and the padded ciphertext length is 32. -/
theorem aes_encrypt_scratch_size_witness :
    (0 : Int) < (StringVal.ofBytes (ascii "abc0123456789abcdef")).len ∧
    (StringVal.ofBytes (ascii "abc0123456789abcdef")).len + 16 ≤ INT_MAX ∧
    aes_encrypt_cipher_len 19 = 35 ∧ ((19 : Int) / 16 + 1) * 16 = 32 ∧
    (aes_encrypt copy_cipher (StringVal.ofBytes (ascii "abc0123456789abcdef")) key16).trace.head?
      = some (Event.new_char ((StringVal.ofBytes (ascii "abc0123456789abcdef")).len + 16)) :=
  ⟨by decide, by decide, by decide, by decide,
   (aes_encrypt_scratch_size copy_cipher (StringVal.ofBytes (ascii "abc0123456789abcdef")) key16
      rfl (by decide) (by decide)).2.2.2.1⟩

/-- Counterexample to C10 as stated: at the positive `int` length
`n = 2147483647` the `int` sum `n + 16` wraps to -2147483633, which is not one
block more than `n` and is below the padded length `(n / 16 + 1) * 16`. The
first length at which the sum wraps is 2147483632. -/
theorem aes_encrypt_scratch_size_overflow :
    (0 : Int) < 2147483647 ∧ (2147483647 : Int) ≤ INT_MAX ∧
    aes_encrypt_cipher_len 2147483647 = -2147483633 ∧
    aes_encrypt_cipher_len 2147483632 = -2147483648 ∧
    aes_encrypt_cipher_len 2147483647 ≠ 2147483647 + 16 ∧
    ¬ ((2147483647 / 16 + 1) * 16 ≤ aes_encrypt_cipher_len 2147483647) ∧
    long_src.is_null = false ∧ long_src.len = 2147483647 ∧ long_src.WellFormed ∧
    (aes_encrypt copy_cipher long_src key16).trace.head?
      = some (Event.new_char (-2147483633)) ∧
    (aes_encrypt copy_cipher long_src StringVal.null).trace.head?
      = some (Event.new_char (-2147483633)) := by
  have hc : aes_encrypt_cipher_len 2147483647 = -2147483633 := by decide
  rw [aes_encrypt_long_src, aes_encrypt_long_src]
  exact ⟨by decide, by decide, hc, by decide, by decide, by decide,
    long_src_facts.1, long_src_facts.2.1, long_src_facts.2.2, rfl, rfl⟩

end starrocks
